import Mathlib

/-!
Shallow embedding of the ingestion / dedup / broadcast pipeline of
`backend/bot_service.py` and the SSE fan-out of `backend/main.py`,
together with proofs settling the specification claims about them.

Python dicts representing one job posting are modelled by the `Job`
structure below, restricted to the fields the pipeline logic reads:
`id`, `posted_at`, `is_read` and `posted_at_timestamp`.  A missing
`posted_at_timestamp` key is modelled as `none` (the code reads it with
`job.get('posted_at_timestamp', 0)`), a missing `is_read` key coincides
with `false` (read with `.get('is_read', False)`) and a missing
`posted_at` key coincides with `""` (read with `.get('posted_at', '')`).
-/

/-- One job posting, restricted to the fields the pipeline reads. -/
structure Job where
  id : String
  posted_at : String
  is_read : Bool
  posted_at_timestamp : Option Int
deriving DecidableEq, Repr

/-- The normalized epoch timestamp the cleanup pass reads:
`job.get('posted_at_timestamp', 0)` in `_cleanup_old_jobs`. -/
def jobTs (j : Job) : Int :=
  j.posted_at_timestamp.getD 0

/-- Last-occurrence lookup, modelling the Python dict comprehension
`{job['id']: job for job in jobs}` (later entries overwrite earlier
ones) followed by `map.get(i)`. -/
def existingMapGet : List Job → String → Option Job
  | [], _ => none
  | j :: rest, i =>
    match existingMapGet rest i with
    | some e => some e
    | none => if j.id = i then some j else none

/-- Read-state carry-forward applied to one retained posting, from
`scrape_and_emit`: `if j['id'] in existing_jobs_map and
existing_jobs_map[j['id']].get('is_read', False): j['is_read'] = True`. -/
def forceRead (existing : List Job) (j : Job) : Job :=
  match existingMapGet existing j.id with
  | some e => if e.is_read then { j with is_read := true } else j
  | none => j

/-- Lexicographic code-point comparison on character lists, modelling
Python's `<` on `str` (which compares unicode code points). -/
def strLtB : List Char → List Char → Bool
  | [], [] => false
  | [], _ :: _ => true
  | _ :: _, [] => false
  | a :: as, b :: bs => if a < b then true else if b < a then false else strLtB as bs

/-- Python string comparison `a < b` on the `posted_at` keys. -/
def postedLt (a b : String) : Bool :=
  strLtB a.data b.data

/-- Insert into a list kept sorted by `posted_at` descending; an element
passes over entries with an equal or larger key, matching the stability
of Python `list.sort(key=..., reverse=True)`. -/
def insertDesc (x : Job) : List Job → List Job
  | [] => [x]
  | y :: ys => if postedLt y.posted_at x.posted_at then x :: y :: ys else y :: insertDesc x ys

/-- Stable sort by `posted_at` descending (string comparison), modelling
`jobs.sort(key=lambda x: x.get('posted_at', ''), reverse=True)`. -/
def sortDesc (l : List Job) : List Job :=
  l.foldl (fun acc x => insertDesc x acc) []

/-- De-duplication by id keeping the first occurrence, carrying the
`seen_ids` accumulator; each retained posting is passed through
`forceRead`, fused exactly as in the merge loop of `scrape_and_emit`. -/
def dedupeForce (existing : List Job) : List Job → List String → List Job
  | [], _ => []
  | j :: rest, seen =>
    if seen.contains j.id then dedupeForce existing rest seen
    else forceRead existing j :: dedupeForce existing rest (j.id :: seen)

/-- Plain de-duplication by id keeping the first occurrence. -/
def dedupeById : List Job → List String → List Job
  | [], _ => []
  | j :: rest, seen =>
    if seen.contains j.id then dedupeById rest seen
    else j :: dedupeById rest (j.id :: seen)

/-- The category-batch merge of `scrape_and_emit` (bot_service.py lines
631-653): concatenate the new batch in front of the existing snapshot,
de-duplicate by id (first occurrence wins) while forcing `is_read` from
the existing snapshot, sort by `posted_at` descending, truncate to
`max_jobs`. -/
def mergeCode (existing batch : List Job) (maxJobs : Nat) : List Job :=
  (sortDesc (dedupeForce existing (batch ++ existing) [])).take maxJobs

/-- The merge algorithm exactly as the specification document words it
(spec section 4.2): concatenate, de-duplicate keeping first occurrence,
force `is_read := true` on a retained posting when AN existing posting
with the same id had `is_read = true`, sort by `posted_at` descending,
truncate.  Kept separate from `mergeCode` so the refinement claim
compares the source against the spec's words. -/
def forceReadSpec (existing : List Job) (j : Job) : Job :=
  if existing.any (fun e => e.id == j.id && e.is_read) then { j with is_read := true } else j

/-- Spec-worded merge; see `forceReadSpec`. -/
def mergeSpecAlgorithm (existing batch : List Job) (maxJobs : Nat) : List Job :=
  (sortDesc ((dedupeById (batch ++ existing) []).map (forceReadSpec existing))).take maxJobs

/-- The eviction loop of `scrape_and_emit` (bot_service.py lines
614-618): `while len(self.seen_job_ids) > self.max_seen_ids and
self.seen_job_order: old_id = self.seen_job_order.popleft(); if old_id
in self.seen_job_ids: self.seen_job_ids.remove(old_id)`.  The Python
`set` is represented by a duplicate-free list; `List.erase` is a no-op
when the popped id is absent, matching the guarded `remove`. -/
def pruneSeen (m : Nat) : List String → List String → List String × List String
  | ids, [] => (ids, [])
  | ids, o :: rest =>
    if m < ids.length then pruneSeen m (ids.erase o) rest
    else (ids, o :: rest)

/-- One dedup-cache admission (bot_service.py lines 608-618): if the id
is already present nothing changes and the job is not new; otherwise the
id is added to the set, appended at the tail of the insertion order, and
the eviction loop runs.  Returns (is-new, set, order). -/
def admitOne (m : Nat) (ids order : List String) (i : String) : Bool × List String × List String :=
  if i ∈ ids then (false, ids, order)
  else
    let pr := pruneSeen m (i :: ids) (order ++ [i])
    (true, pr.1, pr.2)

/-- Sequential admission of one category's scraped jobs, collecting the
jobs whose ids were new, exactly as the `for job in category_jobs` loop
of `scrape_and_emit`. -/
def admitBatch (m : Nat) : List String → List String → List Job → List Job × List String × List String
  | ids, order, [] => ([], ids, order)
  | ids, order, j :: rest =>
    let a := admitOne m ids order j.id
    if a.1 then
      let r := admitBatch m a.2.1 a.2.2 rest
      (j :: r.1, r.2.1, r.2.2)
    else admitBatch m ids order rest

/-- Fold a list of ids through `admitOne`, keeping only the cache state. -/
def admitSeq (m : Nat) (st : List String × List String) (l : List String) : List String × List String :=
  l.foldl (fun st i => let r := admitOne m st.1 st.2 i; (r.2.1, r.2.2)) st

/-- The mutable state of `CrowdworksBot` restricted to the fields the
pipeline logic reads and writes; defaults are the `__init__` values. -/
structure BotState where
  is_running : Bool := false
  is_paused : Bool := false
  jobs_found : Nat := 0
  unread_count : Nat := 0
  error_count : Nat := 0
  last_error : Option String := none
  seen_job_ids : List String := []
  seen_job_order : List String := []
  max_seen_ids : Nat := 5000
  current_jobs : List Job := []
  max_jobs : Nat := 50
  last_sent_job_ids : List String := []
deriving DecidableEq, Repr

/-- The freshly constructed bot: `CrowdworksBot.__init__` defaults. -/
def initialBot : BotState := {}

/-- Processing of one category's scrape result by `scrape_and_emit`
(bot_service.py lines 602-694): empty results return early; otherwise
each id goes through the dedup cache, and when the batch contains new
jobs they are sorted by `posted_at` descending, counted, merged into the
snapshot via `mergeCode`, and the recently-sent tracking set is updated
(jobs already in `last_sent_job_ids` are not re-sent; the set is pruned
by 100 once it exceeds 1000 — Python set iteration order is unspecified,
the list order stands in for it). -/
def processCategory (s : BotState) (categoryJobs : List Job) : BotState :=
  if categoryJobs.isEmpty then s
  else
    let r := admitBatch s.max_seen_ids s.seen_job_ids s.seen_job_order categoryJobs
    let newJobs := r.1
    let s1 := { s with seen_job_ids := r.2.1, seen_job_order := r.2.2 }
    if newJobs.isEmpty then s1
    else
      let sortedNew := sortDesc newJobs
      let trulyNew := sortedNew.filter (fun j => !(s1.last_sent_job_ids.contains j.id))
      let sent1 := trulyNew.foldl
        (fun acc j => if acc.contains j.id then acc else acc ++ [j.id]) s1.last_sent_job_ids
      let sent2 := if 1000 < sent1.length then sent1.drop 100 else sent1
      { s1 with
        jobs_found := s1.jobs_found + newJobs.length
        unread_count := s1.unread_count + newJobs.length
        current_jobs := mergeCode s.current_jobs sortedNew s.max_jobs
        last_sent_job_ids := sent2 }

/-- The end-of-cycle snapshot rebuild core (`_scrape_and_process_sync`,
bot_service.py lines 708-721): sort the aggregated scrape results by
`posted_at` descending, carry `is_read` forward from the previous
snapshot, truncate to `max_jobs`. -/
def rebuildMerge (existing aggregated : List Job) (maxJobs : Nat) : List Job :=
  ((sortDesc aggregated).map (forceRead existing)).take maxJobs

/-- The end-of-cycle snapshot rebuild as a state transformer; with no
aggregated jobs the snapshot is left unchanged (`if aggregated_jobs:`). -/
def rebuildSnapshot (s : BotState) (aggregated : List Job) : BotState :=
  if aggregated.isEmpty then s
  else { s with current_jobs := rebuildMerge s.current_jobs aggregated s.max_jobs }

/-- Whether the cleanup pass keeps a posting: `job.get('posted_at_timestamp', 0) > cutoff_time`. -/
def jobSurvives (cutoff : Int) (j : Job) : Bool :=
  decide (cutoff < jobTs j)

/-- The body of `_cleanup_old_jobs` (bot_service.py lines 858-884), with
the wall-clock cutoff `now - job_max_age_hours*3600` abstracted as a
parameter: filter the snapshot by the survival predicate, then intersect
the dedup set, the insertion order and the recently-sent set with the
surviving ids. -/
def cleanupBody (cutoff : Int) (s : BotState) : BotState :=
  let surviving := s.current_jobs.filter (jobSurvives cutoff)
  let survivingIds := surviving.map Job.id
  { s with
    current_jobs := surviving
    seen_job_ids := s.seen_job_ids.filter (fun x => survivingIds.contains x)
    seen_job_order := s.seen_job_order.filter (fun x => survivingIds.contains x)
    last_sent_job_ids := s.last_sent_job_ids.filter (fun x => survivingIds.contains x) }

/-- Set `is_read` on the first job with the given id, reporting whether
one was found (`mark_job_as_read` iterates and `break`s on first match). -/
def markFirst (i : String) : List Job → List Job × Bool
  | [] => ([], false)
  | j :: rest =>
    if j.id = i then ({ j with is_read := true } :: rest, true)
    else
      let r := markFirst i rest
      (j :: r.1, r.2)

/-- `CrowdworksBot.mark_job_as_read`: mark the first matching job and
decrement the unread counter with a floor of zero (`max(0, n-1)` is
Nat subtraction here). -/
def markReadBot (s : BotState) (i : String) : BotState :=
  let r := markFirst i s.current_jobs
  if r.2 then { s with current_jobs := r.1, unread_count := s.unread_count - 1 } else s

/-- `CrowdworksBot.stop` (bot_service.py lines 362-408): flags cleared,
then `seen_job_ids`, `current_jobs` and the counters are cleared.  The
insertion-order deque `seen_job_order` is NOT touched by `stop`. -/
def stopBot (s : BotState) : BotState :=
  { s with
    is_running := false
    is_paused := false
    seen_job_ids := []
    current_jobs := []
    jobs_found := 0
    unread_count := 0 }

/-- `CrowdworksBot.start` (bot_service.py lines 290-318), scraper
assumed available: no-op when already running, otherwise flags set and
counters, dedup set, insertion order and error state cleared
(`current_jobs` is not cleared by `start`). -/
def startBot (s : BotState) : BotState :=
  if s.is_running then s
  else
    { s with
      is_running := true
      is_paused := false
      jobs_found := 0
      unread_count := 0
      seen_job_ids := []
      seen_job_order := []
      error_count := 0
      last_error := none }

/-- `CrowdworksBot.pause`: only effective while running. -/
def pauseBot (s : BotState) : BotState :=
  if s.is_running then { s with is_paused := true } else s

/-- `CrowdworksBot.resume`: only effective while running. -/
def resumeBot (s : BotState) : BotState :=
  if s.is_running then { s with is_paused := false } else s

/-- The `maxJobs` part of `CrowdworksBot.set_settings` (bot_service.py
lines 161-164): `self.max_jobs = max(10, min(200, int(max_jobs_setting)))`.
No truncation of `current_jobs` happens here. -/
def setSettingsBot (s : BotState) (maxJobsSetting : Int) : BotState :=
  { s with max_jobs := (max 10 (min 200 maxJobsSetting)).toNat }

/-- One observable operation on the bot state. -/
inductive BotOp where
  | category (jobs : List Job)
  | rebuildOp (aggregated : List Job)
  | cleanup (cutoff : Int)
  | markReadOp (i : String)
  | startOp
  | stopOp
  | pauseOp
  | resumeOp
  | settings (maxJobsSetting : Int)
deriving Repr

/-- Whether an operation is a settings update. -/
def BotOp.isSettings : BotOp → Bool
  | .settings _ => true
  | _ => false

/-- Apply one operation to the bot state. -/
def applyOp (s : BotState) : BotOp → BotState
  | .category jobs => processCategory s jobs
  | .rebuildOp aggregated => rebuildSnapshot s aggregated
  | .cleanup cutoff => cleanupBody cutoff s
  | .markReadOp i => markReadBot s i
  | .startOp => startBot s
  | .stopOp => stopBot s
  | .pauseOp => pauseBot s
  | .resumeOp => resumeBot s
  | .settings v => setSettingsBot s v

/-- Apply a sequence of operations left to right. -/
def applyOps (s : BotState) (ops : List BotOp) : BotState :=
  ops.foldl applyOp s

/-- One server-sent event carrying a batch of (projected) jobs. -/
structure SSEEvent where
  jobs : List Job
deriving DecidableEq, Repr

/-- The mailbox capacity: `Queue(maxsize=100)` in the `/api/jobs/stream`
handler of main.py. -/
def mailboxCap : Nat := 100

/-- `q.put_nowait(event)` on a bounded queue, with the `Full` exception
swallowed by the publisher (`except Exception: continue`): a full
mailbox is left unchanged, otherwise the event is enqueued at the tail. -/
def putNowait (q : List SSEEvent) (e : SSEEvent) : List SSEEvent :=
  if q.length < mailboxCap then q ++ [e] else q

/-- `broadcast_new_jobs` of main.py (lines 1932-1951): iterate a
snapshot of the weak-referenced client queues, skip dead references
(`none`), and attempt a non-blocking enqueue on each live queue; the
resulting list is the pruned live-client list. -/
def broadcastNewJobs (clients : List (Option (List SSEEvent))) (e : SSEEvent) :
    List (List SSEEvent) :=
  clients.filterMap (fun c => c.map (fun q => putNowait q e))

/-- A job dict as constructed by `RealCrowdworksScraper.scrape_category`
(real_crowdworks_scraper.py lines 1162-1199), restricted to the modelled
fields: the dict carries `posted_at` (the ISO timestamp string) and
`is_read = False`, and sets no `posted_at_timestamp` key at all. -/
def mkScrapedJob (i posted_at : String) : Job :=
  { id := i, posted_at := posted_at, is_read := false, posted_at_timestamp := none }

/-- One iteration of the inner exception handling of
`_scraping_loop_sync` (bot_service.py lines 478-518): a scrape outcome
of `none` means `_scrape_and_process_sync` returned normally; `some msg`
means it raised.  The `except BaseException` handler increments the
error counter and records `last_error`, then the loop CONTINUES — the
running/paused flags are untouched. -/
def cycleIterationStep (s : BotState) (scrapeError : Option String) : BotState :=
  match scrapeError with
  | none => s
  | some msg => { s with error_count := s.error_count + 1, last_error := some msg }

/-- The outermost handler of `_scraping_loop_sync` (bot_service.py lines
536-544), reached only by an exception escaping the whole loop body:
error counted, `last_error` recorded, and the state machine forced to
Stopped. -/
def loopFatalStep (s : BotState) (msg : String) : BotState :=
  { s with
    error_count := s.error_count + 1
    last_error := some msg
    is_running := false
    is_paused := false }

/-- The dedup-cache representation invariant: the id set is
duplicate-free, every id of the set occurs in the insertion order, and
the set respects the `max_seen_ids` bound. -/
def dedupInv (s : BotState) : Prop :=
  s.seen_job_ids.Nodup ∧ (∀ x ∈ s.seen_job_ids, x ∈ s.seen_job_order) ∧
    s.seen_job_ids.length ≤ s.max_seen_ids

theorem pruneSeen_order_suffix (m : Nat) :
    ∀ (order ids : List String), ∃ k, (pruneSeen m ids order).2 = order.drop k := by
  intro order
  induction order with
  | nil => intro ids; exact ⟨0, rfl⟩
  | cons o rest ih =>
    intro ids
    by_cases h : m < ids.length
    · obtain ⟨k, hk⟩ := ih (ids.erase o)
      exact ⟨k + 1, by simpa [pruneSeen, h] using hk⟩
    · exact ⟨0, by simp [pruneSeen, h]⟩

theorem pruneSeen_invariant (m : Nat) :
    ∀ (order ids : List String), ids.Nodup → (∀ x ∈ ids, x ∈ order) →
      (pruneSeen m ids order).1.Nodup ∧
        (∀ x ∈ (pruneSeen m ids order).1, x ∈ (pruneSeen m ids order).2) ∧
        (pruneSeen m ids order).1.length ≤ m := by
  intro order
  induction order with
  | nil =>
    intro ids hnd hsub
    have hids : ids = [] := List.eq_nil_iff_forall_not_mem.mpr fun x hx => by
      simpa using hsub x hx
    subst hids
    simp [pruneSeen]
  | cons o rest ih =>
    intro ids hnd hsub
    by_cases h : m < ids.length
    · have hnd' : (ids.erase o).Nodup := hnd.erase o
      have hsub' : ∀ x ∈ ids.erase o, x ∈ rest := by
        intro x hx
        have hxo := (List.Nodup.mem_erase_iff hnd).mp hx
        rcases List.mem_cons.mp (hsub x hxo.2) with h1 | h1
        · exact absurd h1 hxo.1
        · exact h1
      simpa [pruneSeen, h] using ih (ids.erase o) hnd' hsub'
    · refine ⟨by simpa [pruneSeen, h] using hnd, ?_, ?_⟩
      · intro x hx
        simp only [pruneSeen, if_neg h] at hx ⊢
        exact hsub x hx
      · simp only [pruneSeen, if_neg h]
        omega

theorem admitOne_fst (m : Nat) (ids order : List String) (i : String) :
    (admitOne m ids order i).1 = true ↔ i ∉ ids := by
  by_cases h : i ∈ ids <;> simp [admitOne, h]

theorem admitOne_of_mem (m : Nat) (ids order : List String) (i : String) (h : i ∈ ids) :
    admitOne m ids order i = (false, ids, order) := by
  simp [admitOne, h]

theorem admitOne_invariant (m : Nat) (ids order : List String) (i : String)
    (hnd : ids.Nodup) (hsub : ∀ x ∈ ids, x ∈ order) (hlen : ids.length ≤ m) :
    (admitOne m ids order i).2.1.Nodup ∧
      (∀ x ∈ (admitOne m ids order i).2.1, x ∈ (admitOne m ids order i).2.2) ∧
      (admitOne m ids order i).2.1.length ≤ m := by
  by_cases h : i ∈ ids
  · simp only [admitOne, if_pos h]
    exact ⟨hnd, hsub, hlen⟩
  · have hnd' : (i :: ids).Nodup := by simp [hnd, h]
    have hsub' : ∀ x ∈ i :: ids, x ∈ order ++ [i] := by
      intro x hx
      rcases hx with _ | hx
      · simp
      · simpa using Or.inl (hsub x (by assumption))
    simpa only [admitOne, if_neg h] using pruneSeen_invariant m (order ++ [i]) (i :: ids) hnd' hsub'

theorem admitBatch_invariant (m : Nat) :
    ∀ (jobs : List Job) (ids order : List String), ids.Nodup → (∀ x ∈ ids, x ∈ order) →
      ids.length ≤ m →
      (admitBatch m ids order jobs).2.1.Nodup ∧
        (∀ x ∈ (admitBatch m ids order jobs).2.1, x ∈ (admitBatch m ids order jobs).2.2) ∧
        (admitBatch m ids order jobs).2.1.length ≤ m := by
  intro jobs
  induction jobs with
  | nil => intro ids order hnd hsub hlen; exact ⟨hnd, hsub, hlen⟩
  | cons j rest ih =>
    intro ids order hnd hsub hlen
    have hone := admitOne_invariant m ids order j.id hnd hsub hlen
    by_cases h : j.id ∈ ids
    · have hfst : (admitOne m ids order j.id).1 = false := by
        rw [admitOne_of_mem m ids order j.id h]
      simp only [admitBatch, hfst, if_false, Bool.false_eq_true]
      exact ih ids order hnd hsub hlen
    · have hfst : (admitOne m ids order j.id).1 = true := (admitOne_fst m ids order j.id).mpr h
      have hrec := ih (admitOne m ids order j.id).2.1 (admitOne m ids order j.id).2.2
        hone.1 hone.2.1 hone.2.2
      simpa only [admitBatch, hfst, if_true] using hrec

/-- C2: the deduplication admit step reports an id as new and appends it
at the tail of the insertion order exactly when the id is not currently
present (an already-present id leaves the cache untouched); eviction
removes oldest ids from the front only, so the resulting order is a
suffix of the tail-extended order; and with `max_seen_ids = 2`,
admitting ids 1, 2, 3 in order evicts id 1, after which re-admitting
id 1 reports it as new. -/
theorem claim_C2_admit_contract (m : Nat) (ids order : List String) (i : String) :
    ((admitOne m ids order i).1 = true ↔ i ∉ ids) ∧
      (i ∈ ids → admitOne m ids order i = (false, ids, order)) ∧
      (i ∉ ids → ∃ k, (admitOne m ids order i).2.2 = (order ++ [i]).drop k) ∧
      (admitSeq 2 ([], []) ["1", "2", "3"] = (["3", "2"], ["2", "3"]) ∧
        "1" ∉ (admitSeq 2 ([], []) ["1", "2", "3"]).1 ∧
        (admitOne 2 ["3", "2"] ["2", "3"] "1").1 = true) := by
  refine ⟨admitOne_fst m ids order i, admitOne_of_mem m ids order i, ?_, by decide⟩
  intro h
  simpa only [admitOne, if_neg h] using pruneSeen_order_suffix m (order ++ [i]) (i :: ids)

theorem claim_C2_admit_contract_witness :
    ∃ k, (admitOne 2 ["3", "2"] ["2", "3"] "1").2.2 = ((["2", "3"] : List String) ++ ["1"]).drop k :=
  (claim_C2_admit_contract 2 ["3", "2"] ["2", "3"] "1").2.2.1 (by decide)

theorem processCategory_dedupInv (s : BotState) (jobs : List Job) (h : dedupInv s) :
    dedupInv (processCategory s jobs) := by
  obtain ⟨hnd, hsub, hlen⟩ := h
  by_cases hj : jobs.isEmpty
  · simpa [processCategory, hj] using ⟨hnd, hsub, hlen⟩
  · have hb := admitBatch_invariant s.max_seen_ids jobs s.seen_job_ids s.seen_job_order hnd hsub hlen
    by_cases hn : (admitBatch s.max_seen_ids s.seen_job_ids s.seen_job_order jobs).1.isEmpty
    · simpa only [processCategory, if_neg hj, hn, if_true, dedupInv] using hb
    · simpa only [processCategory, if_neg hj, hn, if_false, Bool.false_eq_true, dedupInv] using hb

theorem cleanupBody_dedupInv (cutoff : Int) (s : BotState) (h : dedupInv s) :
    dedupInv (cleanupBody cutoff s) := by
  obtain ⟨hnd, hsub, hlen⟩ := h
  simp only [cleanupBody, dedupInv]
  refine ⟨hnd.filter _, ?_, le_trans (List.length_filter_le _ _) hlen⟩
  intro x hx
  rw [List.mem_filter] at hx ⊢
  exact ⟨hsub x hx.1, hx.2⟩

theorem dedupInv_applyOp (s : BotState) (o : BotOp) (h : dedupInv s) :
    dedupInv (applyOp s o) := by
  cases o with
  | category jobs => exact processCategory_dedupInv s jobs h
  | rebuildOp aggregated =>
    obtain ⟨hnd, hsub, hlen⟩ := h
    unfold applyOp rebuildSnapshot
    by_cases ha : aggregated.isEmpty <;> simp [ha, dedupInv] <;> exact ⟨hnd, hsub, hlen⟩
  | cleanup cutoff => exact cleanupBody_dedupInv cutoff s h
  | markReadOp i =>
    obtain ⟨hnd, hsub, hlen⟩ := h
    unfold applyOp markReadBot
    by_cases hf : (markFirst i s.current_jobs).2 <;> simp [hf, dedupInv] <;> exact ⟨hnd, hsub, hlen⟩
  | startOp =>
    obtain ⟨hnd, hsub, hlen⟩ := h
    unfold applyOp startBot
    by_cases hr : s.is_running <;> simp [hr, dedupInv] <;> exact ⟨hnd, hsub, hlen⟩
  | stopOp => simp [applyOp, stopBot, dedupInv]
  | pauseOp =>
    obtain ⟨hnd, hsub, hlen⟩ := h
    unfold applyOp pauseBot
    by_cases hr : s.is_running <;> simp [hr, dedupInv] <;> exact ⟨hnd, hsub, hlen⟩
  | resumeOp =>
    obtain ⟨hnd, hsub, hlen⟩ := h
    unfold applyOp resumeBot
    by_cases hr : s.is_running <;> simp [hr, dedupInv] <;> exact ⟨hnd, hsub, hlen⟩
  | settings v =>
    obtain ⟨hnd, hsub, hlen⟩ := h
    exact ⟨hnd, hsub, hlen⟩

/-- C5: the dedup-cache bound is a true invariant: from any state
satisfying the cache representation invariant (in particular the
freshly constructed bot), any sequence of operations — category
ingestions, snapshot rebuilds, cleanups, mark-read, start, stop,
pause, resume, settings updates — leaves the number of cached ids at
most `max_seen_ids`; moreover one admission never grows the id set
beyond `max(max_seen_ids, previous size)`, since each admission that
pushes the size over the cap immediately evicts oldest-first until the
bound is restored. -/
theorem claim_C5_cache_bound (s : BotState) (ops : List BotOp) (h : dedupInv s) :
    (applyOps s ops).seen_job_ids.length ≤ (applyOps s ops).max_seen_ids ∧
      dedupInv (applyOps s ops) ∧
      (∀ (m : Nat) (ids order : List String) (i : String), ids.Nodup →
        (∀ x ∈ ids, x ∈ order) →
        (admitOne m ids order i).2.1.length ≤ max m ids.length) := by
  have hall : dedupInv (applyOps s ops) := by
    induction ops generalizing s with
    | nil => exact h
    | cons o rest ih => exact ih (applyOp s o) (dedupInv_applyOp s o h)
  refine ⟨hall.2.2, hall, ?_⟩
  intro m ids order i hnd hsub
  by_cases hm : i ∈ ids
  · rw [admitOne_of_mem m ids order i hm]
    exact le_max_right m ids.length
  · have hnd' : (i :: ids).Nodup := by simp [hnd, hm]
    have hsub' : ∀ x ∈ i :: ids, x ∈ order ++ [i] := by
      intro x hx
      rcases List.mem_cons.mp hx with h1 | h1
      · simp [h1]
      · simpa using Or.inl (hsub x h1)
    have := (pruneSeen_invariant m (order ++ [i]) (i :: ids) hnd' hsub').2.2
    simp only [admitOne, if_neg hm]
    exact le_max_of_le_left this

theorem claim_C5_cache_bound_witness :
    (applyOps initialBot [BotOp.category [⟨"a", "2", false, none⟩, ⟨"b", "1", false, none⟩],
        BotOp.cleanup 0, BotOp.stopOp]).seen_job_ids.length ≤
      (applyOps initialBot [BotOp.category [⟨"a", "2", false, none⟩, ⟨"b", "1", false, none⟩],
        BotOp.cleanup 0, BotOp.stopOp]).max_seen_ids :=
  (claim_C5_cache_bound initialBot
    [BotOp.category [⟨"a", "2", false, none⟩, ⟨"b", "1", false, none⟩],
      BotOp.cleanup 0, BotOp.stopOp] ⟨by decide, by decide, by decide⟩).1

theorem mergeCode_length_le (existing batch : List Job) (m : Nat) :
    (mergeCode existing batch m).length ≤ m := by
  simpa [mergeCode, List.length_take] using Nat.min_le_left _ _

theorem rebuildMerge_length_le (existing aggregated : List Job) (m : Nat) :
    (rebuildMerge existing aggregated m).length ≤ m := by
  simpa [rebuildMerge, List.length_take] using Nat.min_le_left _ _

theorem markFirst_length (i : String) :
    ∀ l : List Job, (markFirst i l).1.length = l.length := by
  intro l
  induction l with
  | nil => rfl
  | cons j rest ih =>
    by_cases h : j.id = i <;> simp [markFirst, h, ih]

theorem snapshotCap_applyOp (s : BotState) (o : BotOp)
    (h : s.current_jobs.length ≤ s.max_jobs) (ho : o.isSettings = false) :
    (applyOp s o).current_jobs.length ≤ (applyOp s o).max_jobs := by
  cases o with
  | category jobs =>
    unfold applyOp processCategory
    by_cases hj : jobs.isEmpty
    · simpa [hj] using h
    · by_cases hn : (admitBatch s.max_seen_ids s.seen_job_ids s.seen_job_order jobs).1.isEmpty
      · simpa [hj, hn] using h
      · simpa [hj, hn] using mergeCode_length_le s.current_jobs _ s.max_jobs
  | rebuildOp aggregated =>
    unfold applyOp rebuildSnapshot
    by_cases ha : aggregated.isEmpty
    · simpa [ha] using h
    · simpa [ha] using rebuildMerge_length_le s.current_jobs aggregated s.max_jobs
  | cleanup cutoff =>
    simpa [applyOp, cleanupBody] using le_trans (List.length_filter_le _ _) h
  | markReadOp i =>
    unfold applyOp markReadBot
    by_cases hf : (markFirst i s.current_jobs).2
    · simpa [hf, markFirst_length] using h
    · simpa [hf] using h
  | startOp =>
    unfold applyOp startBot
    by_cases hr : s.is_running <;> simpa [hr] using h
  | stopOp => simp [applyOp, stopBot]
  | pauseOp =>
    unfold applyOp pauseBot
    by_cases hr : s.is_running <;> simpa [hr] using h
  | resumeOp =>
    unfold applyOp resumeBot
    by_cases hr : s.is_running <;> simpa [hr] using h
  | settings v => simp [BotOp.isSettings] at ho

/-- C4 (amended): the snapshot-cap bound `current_jobs.length ≤
max_jobs` is preserved by every cycle merge, snapshot rebuild, cleanup,
mark-read, start, stop, pause and resume — hence holds at every point of
any sequence of such operations — but NOT by settings updates: a
settings update rewrites `max_jobs` without truncating the snapshot, so
lowering the cap below the current snapshot size breaks the bound until
the next merge or rebuild (see the counterexample). -/
theorem claim_C4_snapshot_cap (s : BotState) (ops : List BotOp)
    (h : s.current_jobs.length ≤ s.max_jobs)
    (hops : ∀ o ∈ ops, o.isSettings = false) :
    (applyOps s ops).current_jobs.length ≤ (applyOps s ops).max_jobs := by
  induction ops generalizing s with
  | nil => exact h
  | cons o rest ih =>
    exact ih (applyOp s o) (snapshotCap_applyOp s o h (hops o (by simp)))
      (fun o' ho' => hops o' (by simp [ho']))

/-- The eleven distinct postings used to exhibit the settings-update
violation of the snapshot cap. -/
def c4Jobs : List Job :=
  [⟨"01", "11", false, none⟩, ⟨"02", "10", false, none⟩, ⟨"03", "09", false, none⟩,
   ⟨"04", "08", false, none⟩, ⟨"05", "07", false, none⟩, ⟨"06", "06", false, none⟩,
   ⟨"07", "05", false, none⟩, ⟨"08", "04", false, none⟩, ⟨"09", "03", false, none⟩,
   ⟨"10", "02", false, none⟩, ⟨"11", "01", false, none⟩]

/-- The reachable state violating the claimed invariant: one category
cycle ingests eleven postings under the default cap 50, then a settings
update lowers `maxJobs` to 10 (the lower clamp bound). -/
def c4BadState : BotState :=
  applyOps initialBot [BotOp.category c4Jobs, BotOp.settings 10]

/-- C4 counterexample: after a cycle merge of eleven postings followed
by a settings update lowering `maxJobs` to 10, the snapshot still holds
eleven postings — `current_jobs` exceeds the current `max_jobs`, so the
claimed always-invariant is false on the code. -/
theorem claim_C4_counterexample :
    c4BadState.current_jobs.length = 11 ∧ c4BadState.max_jobs = 10 ∧
      ¬ c4BadState.current_jobs.length ≤ c4BadState.max_jobs := by
  refine ⟨?_, ?_, ?_⟩ <;> decide

theorem claim_C4_snapshot_cap_witness :
    (applyOps initialBot [BotOp.category c4Jobs, BotOp.cleanup 0, BotOp.markReadOp "01",
        BotOp.stopOp]).current_jobs.length ≤
      (applyOps initialBot [BotOp.category c4Jobs, BotOp.cleanup 0, BotOp.markReadOp "01",
        BotOp.stopOp]).max_jobs :=
  claim_C4_snapshot_cap initialBot
    [BotOp.category c4Jobs, BotOp.cleanup 0, BotOp.markReadOp "01", BotOp.stopOp]
    (by decide) (by decide)

theorem dedupeForce_eq_map (existing : List Job) :
    ∀ (l : List Job) (seen : List String),
      dedupeForce existing l seen = (dedupeById l seen).map (forceRead existing) := by
  intro l
  induction l with
  | nil => intro seen; rfl
  | cons j rest ih =>
    intro seen
    by_cases h : j.id ∈ seen <;> simp [dedupeForce, dedupeById, h, ih]

theorem existingMapGet_some (l : List Job) (i : String) (e : Job)
    (h : existingMapGet l i = some e) : e ∈ l ∧ e.id = i := by
  induction l with
  | nil => simp [existingMapGet] at h
  | cons j rest ih =>
    simp only [existingMapGet] at h
    cases hr : existingMapGet rest i with
    | some e' =>
      rw [hr] at h
      cases h
      have hm := ih hr
      exact ⟨List.mem_cons_of_mem _ hm.1, hm.2⟩
    | none =>
      rw [hr] at h
      by_cases hj : j.id = i
      · rw [if_pos hj] at h
        cases h
        exact ⟨List.mem_cons_self _ _, hj⟩
      · rw [if_neg hj] at h
        cases h

theorem existingMapGet_none_of_not_mem (l : List Job) (i : String)
    (h : ∀ e ∈ l, e.id ≠ i) : existingMapGet l i = none := by
  induction l with
  | nil => rfl
  | cons j rest ih =>
    have hrest : existingMapGet rest i = none :=
      ih fun e he => h e (List.mem_cons_of_mem j he)
    simp only [existingMapGet, hrest, if_neg (h j (List.mem_cons_self j rest))]

theorem existingMapGet_read (l : List Job) (i : String)
    (hnd : (l.map Job.id).Nodup) (e : Job) (he : e ∈ l) (hid : e.id = i)
    (hread : e.is_read = true) :
    ∃ e', existingMapGet l i = some e' ∧ e'.is_read = true := by
  induction l with
  | nil => cases he
  | cons j rest ih =>
    have hnd' : (rest.map Job.id).Nodup := by
      simpa using (List.nodup_cons.mp (by simpa using hnd)).2
    have hhead : j.id ∉ rest.map Job.id := (List.nodup_cons.mp (by simpa using hnd)).1
    rcases List.mem_cons.mp he with rfl | hmem
    · have hnone : existingMapGet rest i = none := by
        apply existingMapGet_none_of_not_mem
        intro e' he' heq
        exact hhead (by rw [hid, ← heq]; exact List.mem_map_of_mem Job.id he')
      exact ⟨e, by simp only [existingMapGet, hnone, if_pos hid], hread⟩
    · obtain ⟨e', h1, h2⟩ := ih hnd' hmem
      exact ⟨e', by simp only [existingMapGet, h1], h2⟩

theorem forceRead_eq_spec (existing : List Job) (hnd : (existing.map Job.id).Nodup) (j : Job) :
    forceRead existing j = forceReadSpec existing j := by
  by_cases hany : existing.any (fun e => e.id == j.id && e.is_read) = true
  · obtain ⟨e, he, hprop⟩ := List.any_eq_true.mp hany
    simp only [Bool.and_eq_true, beq_iff_eq] at hprop
    obtain ⟨e', h1, h2⟩ := existingMapGet_read existing j.id hnd e he hprop.1 hprop.2
    simp [forceRead, forceReadSpec, h1, h2, hany]
  · have hall : ∀ e ∈ existing, e.id = j.id → e.is_read = false := by
      intro e he hid
      cases hb : e.is_read with
      | false => rfl
      | true => exact absurd (List.any_eq_true.mpr ⟨e, he, by simp [hid, hb]⟩) hany
    cases hg : existingMapGet existing j.id with
    | none => simp [forceRead, forceReadSpec, hg, hany]
    | some e =>
      have hm := existingMapGet_some existing j.id e hg
      simp [forceRead, forceReadSpec, hg, hall e hm.1 hm.2, hany]

/-- C1 (amended): for every current snapshot whose posting ids are
unique and every non-empty incoming batch, the code's fused merge equals
the spec's deterministic algorithm: concatenate the new batch in front,
de-duplicate by id keeping the first occurrence, force `is_read = true`
on retained postings whose id was read in the existing snapshot, sort by
`posted_at` descending via string comparison, truncate to `max_jobs`; in
particular merging postings c, b, a (newest first) into an empty
snapshot with `max_jobs = 2` yields the snapshot [c, b].  The id-unique
restriction is necessary: duplicate-id snapshots are reachable (the
rebuild never de-duplicates cross-category aggregates and `mark_read`
marks only the first copy), and there the code's last-occurrence dict
lookup diverges from the spec's existential read-state step — see the
counterexample. -/
theorem claim_C1_merge_refinement (existing batch : List Job) (maxJobs : Nat)
    (hnd : (existing.map Job.id).Nodup) (hb : batch ≠ []) :
    mergeCode existing batch maxJobs = mergeSpecAlgorithm existing batch maxJobs ∧
      mergeCode [] [⟨"c", "3", false, none⟩, ⟨"b", "2", false, none⟩, ⟨"a", "1", false, none⟩] 2
        = [⟨"c", "3", false, none⟩, ⟨"b", "2", false, none⟩] := by
  constructor
  · unfold mergeCode mergeSpecAlgorithm
    rw [dedupeForce_eq_map]
    rw [funext (forceRead_eq_spec existing hnd)]
  · decide

theorem claim_C1_merge_refinement_witness :
    mergeCode [] [⟨"c", "3", false, none⟩, ⟨"b", "2", false, none⟩, ⟨"a", "1", false, none⟩] 2
      = mergeSpecAlgorithm []
          [⟨"c", "3", false, none⟩, ⟨"b", "2", false, none⟩, ⟨"a", "1", false, none⟩] 2 :=
  (claim_C1_merge_refinement []
    [⟨"c", "3", false, none⟩, ⟨"b", "2", false, none⟩, ⟨"a", "1", false, none⟩] 2
    (by decide) (by decide)).1

theorem mem_insertDesc (x z : Job) : ∀ l, z ∈ insertDesc x l → z = x ∨ z ∈ l := by
  intro l
  induction l with
  | nil =>
    intro h
    rcases List.mem_singleton.mp h with rfl
    exact Or.inl rfl
  | cons y ys ih =>
    intro h
    by_cases hc : postedLt y.posted_at x.posted_at = true
    · simp only [insertDesc, hc, if_true] at h
      rcases List.mem_cons.mp h with rfl | h
      · exact Or.inl rfl
      · exact Or.inr h
    · simp only [insertDesc, hc, if_false, Bool.false_eq_true] at h
      rcases List.mem_cons.mp h with rfl | h
      · exact Or.inr (List.mem_cons_self _ _)
      · rcases ih h with h | h
        · exact Or.inl h
        · exact Or.inr (List.mem_cons_of_mem _ h)

theorem mem_sortDesc_aux :
    ∀ (l acc : List Job) (z : Job),
      z ∈ l.foldl (fun a x => insertDesc x a) acc → z ∈ acc ∨ z ∈ l := by
  intro l
  induction l with
  | nil => intro acc z h; exact Or.inl h
  | cons x rest ih =>
    intro acc z h
    rcases ih (insertDesc x acc) z h with h | h
    · rcases mem_insertDesc x z acc h with h | h
      · exact Or.inr (by simp [h])
      · exact Or.inl h
    · exact Or.inr (List.mem_cons_of_mem _ h)

theorem mem_sortDesc (l : List Job) (z : Job) (h : z ∈ sortDesc l) : z ∈ l := by
  rcases mem_sortDesc_aux l [] z h with h | h
  · cases h
  · exact h

theorem dedupeForce_cons_of_mem (existing : List Job) (j : Job) (rest : List Job)
    (seen : List String) (h : j.id ∈ seen) :
    dedupeForce existing (j :: rest) seen = dedupeForce existing rest seen := by
  simp [dedupeForce, h]

theorem dedupeForce_cons_of_not_mem (existing : List Job) (j : Job) (rest : List Job)
    (seen : List String) (h : j.id ∉ seen) :
    dedupeForce existing (j :: rest) seen
      = forceRead existing j :: dedupeForce existing rest (j.id :: seen) := by
  simp [dedupeForce, h]

theorem mem_dedupeForce (existing : List Job) :
    ∀ (l : List Job) (seen : List String) (z : Job),
      z ∈ dedupeForce existing l seen → ∃ x ∈ l, z = forceRead existing x := by
  intro l
  induction l with
  | nil => intro seen z h; cases h
  | cons j rest ih =>
    intro seen z h
    by_cases hc : j.id ∈ seen
    · rw [dedupeForce_cons_of_mem existing j rest seen hc] at h
      obtain ⟨x, hx, he⟩ := ih seen z h
      exact ⟨x, List.mem_cons_of_mem _ hx, he⟩
    · rw [dedupeForce_cons_of_not_mem existing j rest seen hc] at h
      rcases List.mem_cons.mp h with rfl | h
      · exact ⟨j, List.mem_cons_self _ _, rfl⟩
      · obtain ⟨x, hx, he⟩ := ih (j.id :: seen) z h
        exact ⟨x, List.mem_cons_of_mem _ hx, he⟩

theorem forceRead_id (existing : List Job) (j : Job) : (forceRead existing j).id = j.id := by
  unfold forceRead
  cases existingMapGet existing j.id with
  | none => rfl
  | some e => by_cases h : e.is_read = true <;> simp [h]

theorem forceRead_is_read_of (existing : List Job) (i : String)
    (hnd : (existing.map Job.id).Nodup)
    (hex : ∃ e ∈ existing, e.id = i ∧ e.is_read = true)
    (j : Job) (hid : j.id = i) : (forceRead existing j).is_read = true := by
  obtain ⟨e, he, heid, her⟩ := hex
  obtain ⟨e', h1, h2⟩ := existingMapGet_read existing i hnd e he heid her
  unfold forceRead
  rw [hid, h1]
  simp [h2]

/-- C3 (amended): read-state carry-forward on id-unique snapshots — for
every id that some posting of a snapshot with unique posting ids carries
with `is_read = true` (as after `mark_read` of that id), every posting
with that id retained by a later category-batch merge, and every posting
with that id retained by an end-of-cycle snapshot rebuild, has
`is_read = true`, even though re-ingested copies arrive with
`is_read = false`.  On reachable duplicate-id snapshots where only the
first copy is read, the `existing_jobs_map` dict keeps the last, unread
copy and the carry-forward fails — see the counterexample. -/
theorem claim_C3_read_carry (existing batch aggregated : List Job) (maxJobs : Nat) (i : String)
    (hnd : (existing.map Job.id).Nodup)
    (hex : ∃ e ∈ existing, e.id = i ∧ e.is_read = true) :
    (∀ j ∈ mergeCode existing batch maxJobs, j.id = i → j.is_read = true) ∧
      (∀ j ∈ rebuildMerge existing aggregated maxJobs, j.id = i → j.is_read = true) := by
  constructor
  · intro j hj hid
    have h1 : j ∈ sortDesc (dedupeForce existing (batch ++ existing) []) :=
      List.take_subset _ _ hj
    have h2 := mem_sortDesc _ _ h1
    obtain ⟨x, hx, he⟩ := mem_dedupeForce existing _ [] j h2
    subst he
    exact forceRead_is_read_of existing i hnd
      ⟨(hex.choose), hex.choose_spec.1, hex.choose_spec.2⟩ x
      (by rw [← forceRead_id existing x]; exact hid)
  · intro j hj hid
    have h1 : j ∈ (sortDesc aggregated).map (forceRead existing) :=
      List.take_subset _ _ hj
    obtain ⟨x, hx, he⟩ := List.mem_map.mp h1
    subst he
    exact forceRead_is_read_of existing i hnd
      ⟨(hex.choose), hex.choose_spec.1, hex.choose_spec.2⟩ x
      (by rw [← forceRead_id existing x]; exact hid)

theorem claim_C3_read_carry_witness :
    (⟨"2", "5", true, none⟩ : Job) ∈
        mergeCode [⟨"2", "1", true, none⟩] [⟨"2", "5", false, none⟩] 50 ∧
      (Job.is_read ⟨"2", "5", true, none⟩) = true :=
  ⟨by decide,
    (claim_C3_read_carry [⟨"2", "1", true, none⟩] [⟨"2", "5", false, none⟩]
      [⟨"2", "5", false, none⟩] 50 "2" (by decide)
      ⟨⟨"2", "1", true, none⟩, by decide, by decide, by decide⟩).1
      ⟨"2", "5", true, none⟩ (by decide) (by decide)⟩

/-- C6: publishing a batch to the live subscribers never raises to the
publisher (the enqueue is a total function on the registry snapshot): a
subscriber whose mailbox holds `mailboxCap` events keeps its mailbox
unchanged — the event is dropped for that subscriber only — while every
subscriber with space receives the event at the tail of its mailbox; in
particular with one saturated and one empty mailbox, the saturated one
is unchanged and the empty one receives the event. -/
theorem claim_C6_broadcast_nonblocking (clients : List (Option (List SSEEvent)))
    (e : SSEEvent) (q : List SSEEvent) (h : some q ∈ clients) :
    (mailboxCap ≤ q.length → q ∈ broadcastNewJobs clients e) ∧
      (q.length < mailboxCap → q ++ [e] ∈ broadcastNewJobs clients e) ∧
      broadcastNewJobs [some (List.replicate mailboxCap ⟨[]⟩), some []] e
        = [List.replicate mailboxCap ⟨[]⟩, [e]] := by
  refine ⟨?_, ?_, ?_⟩
  · intro hfull
    exact List.mem_filterMap.mpr ⟨some q, h, by simp [putNowait, Nat.not_lt.mpr hfull]⟩
  · intro hspace
    exact List.mem_filterMap.mpr ⟨some q, h, by simp [putNowait, hspace]⟩
  · simp [broadcastNewJobs, putNowait, mailboxCap]

theorem claim_C6_broadcast_nonblocking_witness :
    List.replicate mailboxCap (⟨[]⟩ : SSEEvent) ∈
      broadcastNewJobs [some (List.replicate mailboxCap ⟨[]⟩), some []]
        ⟨[⟨"x", "1", false, none⟩]⟩ :=
  (claim_C6_broadcast_nonblocking [some (List.replicate mailboxCap ⟨[]⟩), some []]
    ⟨[⟨"x", "1", false, none⟩]⟩ (List.replicate mailboxCap ⟨[]⟩)
    (List.mem_cons_self _ _)).1 (by simp)

/-- A running bot state used to exhibit the C7 divergence. -/
def c7Running : BotState := { initialBot with is_running := true }

/-- C7 counterexample: an exception raised by the scrape-and-process
step itself (reaching the inner `except BaseException` handler of
`_scraping_loop_sync`) increments the error counter and records
`last_error`, but the bot is NOT forced to Stopped: `is_running` stays
true and the loop continues, contradicting the claim. -/
theorem claim_C7_counterexample :
    (cycleIterationStep c7Running (some "boom")).is_running ≠ false ∧
      (cycleIterationStep c7Running (some "boom")).error_count = 1 ∧
      (cycleIterationStep c7Running (some "boom")).last_error = some "boom" := by
  refine ⟨by decide, by decide, by decide⟩

/-- C7 (amended): an exception raised by the cycle's scrape-and-process
step is caught by the per-iteration handler, which increments the error
counter and records `last_error` but leaves the running and paused flags
unchanged — the loop retries after a delay; only an exception escaping
the whole loop body (the outermost handler) additionally forces the
state machine to Stopped. -/
theorem claim_C7_cycle_error_handling (s : BotState) (msg : String) :
    (cycleIterationStep s (some msg)).error_count = s.error_count + 1 ∧
      (cycleIterationStep s (some msg)).last_error = some msg ∧
      (cycleIterationStep s (some msg)).is_running = s.is_running ∧
      (cycleIterationStep s (some msg)).is_paused = s.is_paused ∧
      (loopFatalStep s msg).error_count = s.error_count + 1 ∧
      (loopFatalStep s msg).last_error = some msg ∧
      (loopFatalStep s msg).is_running = false ∧
      (loopFatalStep s msg).is_paused = false :=
  ⟨rfl, rfl, rfl, rfl, rfl, rfl, rfl, rfl⟩

theorem cleanup_surviving_ids (cutoff : Int) (s : BotState) (x : String) (l : List String)
    (hx : x ∈ l.filter
      (fun y => ((s.current_jobs.filter (jobSurvives cutoff)).map Job.id).contains y)) :
    ∃ j ∈ s.current_jobs.filter (jobSurvives cutoff), j.id = x := by
  rw [List.mem_filter] at hx
  have hmem : x ∈ (s.current_jobs.filter (jobSurvives cutoff)).map Job.id := by
    simpa using hx.2
  obtain ⟨j, hj, hid⟩ := List.mem_map.mp hmem
  exact ⟨j, hj, hid⟩

/-- C8 (amended): when the cleanup pass runs, a posting is retained in
the snapshot exactly when it was there before and its normalized epoch
timestamp is strictly NEWER than the cutoff — so the pass removes the
postings at or older than the cutoff (not only the strictly older ones,
see the counterexample) — and afterwards the dedup id set, the insertion
order and the recently-sent tracking set contain only ids of postings
surviving in the snapshot. -/
theorem claim_C8_cleanup_resync (cutoff : Int) (s : BotState) :
    (∀ j : Job, j ∈ (cleanupBody cutoff s).current_jobs ↔
        j ∈ s.current_jobs ∧ cutoff < jobTs j) ∧
      (∀ x ∈ (cleanupBody cutoff s).seen_job_ids,
        ∃ j ∈ (cleanupBody cutoff s).current_jobs, j.id = x) ∧
      (∀ x ∈ (cleanupBody cutoff s).seen_job_order,
        ∃ j ∈ (cleanupBody cutoff s).current_jobs, j.id = x) ∧
      (∀ x ∈ (cleanupBody cutoff s).last_sent_job_ids,
        ∃ j ∈ (cleanupBody cutoff s).current_jobs, j.id = x) := by
  refine ⟨?_, ?_, ?_, ?_⟩
  · intro j
    simp [cleanupBody, List.mem_filter, jobSurvives]
  · intro x hx
    simp only [cleanupBody] at hx ⊢
    exact cleanup_surviving_ids cutoff s x s.seen_job_ids hx
  · intro x hx
    simp only [cleanupBody] at hx ⊢
    exact cleanup_surviving_ids cutoff s x s.seen_job_order hx
  · intro x hx
    simp only [cleanupBody] at hx ⊢
    exact cleanup_surviving_ids cutoff s x s.last_sent_job_ids hx

/-- A posting sitting exactly at the cleanup cutoff. -/
def c8Job : Job := ⟨"x", "t", false, some 5⟩

/-- A snapshot holding only the boundary posting. -/
def c8State : BotState := { initialBot with current_jobs := [c8Job] }

/-- C8 counterexample: with the cutoff equal to the posting's normalized
timestamp (5), the posting is NOT older than the cutoff, yet the pass
removes it (`>` keeps only strictly newer) — the snapshot after cleanup
differs from what "removes exactly those postings older than the cutoff"
predicts. -/
theorem claim_C8_counterexample :
    jobTs c8Job = 5 ∧ ¬ jobTs c8Job < 5 ∧
      (cleanupBody 5 c8State).current_jobs = [] ∧
      (cleanupBody 5 c8State).current_jobs
        ≠ c8State.current_jobs.filter (fun j => !(decide (jobTs j < 5))) := by
  refine ⟨rfl, by decide, by decide, by decide⟩

/-- The single posting ingested before `stop` in the C9 counterexample. -/
def c9Job : Job := ⟨"a", "1", false, none⟩

/-- C9 counterexample: ingest one posting (its id enters both the dedup
set and the insertion-order deque), then call `stop`: the id set is
empty but the insertion-order structure still holds the id — `stop` does
not clear `seen_job_order`, contradicting the claim that the dedup
cache's insertion-order structure is empty after `stop()`. -/
theorem claim_C9_counterexample :
    (stopBot (processCategory initialBot [c9Job])).seen_job_ids = [] ∧
      (stopBot (processCategory initialBot [c9Job])).seen_job_order = ["a"] ∧
      (stopBot (processCategory initialBot [c9Job])).seen_job_order ≠ [] := by
  refine ⟨by decide, by decide, by decide⟩

/-- C9 (amended): after `stop()` the running and paused flags are false,
the snapshot is empty, the dedup id set is empty and the jobs-found and
unread counters are zero, but the insertion-order structure of the dedup
cache is left exactly as it was (it is only cleared by the next
`start()`); the thread-join soft-stop behaviour is a concurrency aspect
outside this state model. -/
theorem claim_C9_stop_clears (s : BotState) :
    (stopBot s).is_running = false ∧ (stopBot s).is_paused = false ∧
      (stopBot s).current_jobs = [] ∧ (stopBot s).seen_job_ids = [] ∧
      (stopBot s).jobs_found = 0 ∧ (stopBot s).unread_count = 0 ∧
      (stopBot s).seen_job_order = s.seen_job_order ∧
      (startBot (stopBot s)).seen_job_order = [] :=
  ⟨rfl, rfl, rfl, rfl, rfl, rfl, rfl, rfl⟩

/-- C10: a job dict built by the scraper carries `posted_at` but no
`posted_at_timestamp` key; the cleanup pass retains only postings whose
normalized timestamp is strictly greater than the cutoff, and a posting
lacking the field is normalized to 0 — so for every non-negative cutoff
(always the case for `now - job_max_age_hours*3600` on a real clock)
such a posting is removed by the first cleanup pass regardless of its
`posted_at` age. -/
theorem claim_C10_scraper_timestamp (i pa : String) (cutoff : Int) (s : BotState)
    (hc : 0 ≤ cutoff) :
    (mkScrapedJob i pa).posted_at_timestamp = none ∧
      (mkScrapedJob i pa).posted_at = pa ∧
      (∀ j ∈ (cleanupBody cutoff s).current_jobs, cutoff < jobTs j) ∧
      (∀ j : Job, j.posted_at_timestamp = none →
        j ∉ (cleanupBody cutoff s).current_jobs) := by
  refine ⟨rfl, rfl, ?_, ?_⟩
  · intro j hj
    simp only [cleanupBody] at hj
    have h2 := (List.mem_filter.mp hj).2
    simpa [jobSurvives] using h2
  · intro j hnone hj
    simp only [cleanupBody] at hj
    have h2 := (List.mem_filter.mp hj).2
    simp [jobSurvives, jobTs, hnone] at h2
    omega

theorem claim_C10_scraper_timestamp_witness :
    (mkScrapedJob "x" "2024-01-01T00:00:00") ∉
      (cleanupBody 0
        { initialBot with current_jobs := [mkScrapedJob "x" "2024-01-01T00:00:00"] }).current_jobs :=
  (claim_C10_scraper_timestamp "x" "2024-01-01T00:00:00" 0
    { initialBot with current_jobs := [mkScrapedJob "x" "2024-01-01T00:00:00"] }
    (by decide)).2.2.2 (mkScrapedJob "x" "2024-01-01T00:00:00") rfl

/-- A duplicate-id snapshot with only the first copy read.  It is
reachable: the end-of-cycle rebuild performs no de-duplication across
categories (`aggregated_jobs.extend(category_jobs)` at bot_service.py
line 694 collects every category's results, so an id appearing in two
category feeds enters `current_jobs` twice), and `mark_job_as_read`
marks only the first matching copy (the `break` at line 983). -/
def dupIdSnapshot : List Job :=
  [⟨"2", "9", true, none⟩, ⟨"2", "1", false, none⟩]

/-- A later cycle's batch re-ingesting id "2" with `is_read = false`. -/
def dupIdBatch : List Job := [⟨"2", "5", false, none⟩]

/-- C1 counterexample: on a reachable duplicate-id snapshot (produced by
the model's own rebuild followed by mark-read) the code's merge differs
from the spec's algorithm — the dict comprehension keeps the LAST, unread
copy of id "2", so the code retains the re-ingested posting unread,
while the spec's "if an existing posting with the same id had
is_read=true" step forces it read; the claimed equality for every
current snapshot and non-empty batch is therefore false on the code. -/
theorem claim_C1_counterexample :
    (applyOps initialBot [BotOp.rebuildOp [⟨"2", "9", false, none⟩, ⟨"2", "1", false, none⟩],
        BotOp.markReadOp "2"]).current_jobs = dupIdSnapshot ∧
      dupIdBatch ≠ [] ∧
      mergeCode dupIdSnapshot dupIdBatch 50 = [⟨"2", "5", false, none⟩] ∧
      mergeSpecAlgorithm dupIdSnapshot dupIdBatch 50 = [⟨"2", "5", true, none⟩] ∧
      mergeCode dupIdSnapshot dupIdBatch 50 ≠ mergeSpecAlgorithm dupIdSnapshot dupIdBatch 50 := by
  refine ⟨by decide, by decide, by decide, by decide, by decide⟩

/-- C3 counterexample: the same reachable duplicate-id snapshot carries
id "2" with `is_read = true` (its first copy), yet both the
category-batch merge and the end-of-cycle rebuild retain the
re-ingested copy of id "2" with `is_read = false`, because the
`existing_jobs_map` dict keeps the last, unread copy — the claimed
carry-forward invariant is false on the code. -/
theorem claim_C3_counterexample :
    (applyOps initialBot [BotOp.rebuildOp [⟨"2", "9", false, none⟩, ⟨"2", "1", false, none⟩],
        BotOp.markReadOp "2"]).current_jobs = dupIdSnapshot ∧
      (∃ e ∈ dupIdSnapshot, e.id = "2" ∧ e.is_read = true) ∧
      ¬ (∀ j ∈ mergeCode dupIdSnapshot dupIdBatch 50, j.id = "2" → j.is_read = true) ∧
      ¬ (∀ j ∈ rebuildMerge dupIdSnapshot dupIdBatch 50, j.id = "2" → j.is_read = true) := by
  refine ⟨by decide, by decide, by decide, by decide⟩
